import Mathlib

/- Verification of the batch orchestration, JSON repair, merge and reconciliation
   engine of the bank statement converter (Vr_1.0_Chuyen-doi-so-ngan-hang).

   The TypeScript sources are shallowly embedded: JavaScript strings become
   `List Char` / `String`, JavaScript numbers holding currency amounts become
   `Int`, fallible operations return `Option` / `Except`.  Each definition is
   translated from the corresponding function in `src/App.tsx` or
   `src/services/geminiService.ts`; comments name the source location. -/

namespace VrBank

/-- ASCII part of the JavaScript whitespace class (regex `\s` and
`String.prototype.trim`).  Source: regexes in `robustJSONRepair` and friends. -/
def isJsWs (c : Char) : Bool :=
  c = ' ' || c = '\t' || c = '\n' || c = '\r' || c = '\x0b' || c = '\x0c'

/-- Whitespace accepted between tokens by `JSON.parse`. -/
def isJsonWs (c : Char) : Bool :=
  c = ' ' || c = '\t' || c = '\n' || c = '\r'

/-- Model of `String.prototype.trim` (strip whitespace from both ends). -/
def trimL (l : List Char) : List Char :=
  ((l.dropWhile isJsWs).reverse.dropWhile isJsWs).reverse

/-- ASCII lower-casing, modelling `String.prototype.toLowerCase` on the ASCII
fragment relevant to the classifier patterns and filter keywords. -/
def lowerA (l : List Char) : List Char :=
  l.map Char.toLower

/-- Does pattern `p` occur as a contiguous substring of `l`?  Models
`String.prototype.includes` / `indexOf(...) !== -1`. -/
def hasSubL (p : List Char) : List Char → Bool
  | [] => p.isPrefixOf []
  | l@(_ :: t) => p.isPrefixOf l || hasSubL p t

/-- String-level wrapper for `hasSubL`. -/
def hasSubStr (s pat : String) : Bool :=
  hasSubL pat.data s.data

theorem prefixOf_spec (p l : List Char) : p.isPrefixOf l = true ↔ p <+: l := by
  exact List.isPrefixOf_iff_prefix

theorem hasSubL_spec (p l : List Char) : hasSubL p l = true ↔ p <:+: l := by
  induction l with
  | nil =>
      simp only [hasSubL, prefixOf_spec]
      constructor
      · intro h
        exact h.isInfix
      · intro h
        exact (List.infix_nil.mp h) ▸ List.nil_prefix
  | cons a t ih =>
      simp only [hasSubL, Bool.or_eq_true, prefixOf_spec, ih, List.infix_cons_iff]

/-- First index (if any) at which pattern `p` starts in `l`.  Models
`String.prototype.indexOf` for a non-empty pattern. -/
def firstIdxSub (p : List Char) : List Char → Option Nat
  | [] => if p.isPrefixOf [] then some 0 else none
  | l@(_ :: t) =>
      if p.isPrefixOf l then some 0
      else (firstIdxSub p t).map (· + 1)

/-- Last index (if any) at which pattern `p` starts in `l`.  Models
`String.prototype.lastIndexOf` for a non-empty pattern. -/
def lastIdxSub (p : List Char) : List Char → Option Nat
  | [] => if p.isPrefixOf [] then some 0 else none
  | l@(_ :: t) =>
      match (lastIdxSub p t).map (· + 1) with
      | some j => some j
      | none => if p.isPrefixOf l then some 0 else none

/-- Decimal digit character (`n` is taken mod 10 by the callers). -/
def digitChar (n : Nat) : Char :=
  match n with
  | 0 => '0' | 1 => '1' | 2 => '2' | 3 => '3' | 4 => '4'
  | 5 => '5' | 6 => '6' | 7 => '7' | 8 => '8' | _ => '9'

/-- Fuel-driven digit expansion; `natChars` supplies ample fuel.  (Structural
recursion keeps the definition kernel-computable.) -/
def natCharsF : Nat → Nat → List Char
  | 0, _ => []
  | fuel + 1, n =>
      if n < 10 then [digitChar n]
      else natCharsF fuel (n / 10) ++ [digitChar (n % 10)]

/-- Decimal rendering of a natural number, as JavaScript template literals
render non-negative integral numbers. -/
def natChars (n : Nat) : List Char :=
  natCharsF (n + 1) n

theorem natCharsF_congr : ∀ f₁ f₂ n, n < f₁ → n < f₂ → natCharsF f₁ n = natCharsF f₂ n := by
  intro f₁
  induction f₁ with
  | zero => omega
  | succ f ih =>
      intro f₂ n h1 h2
      cases f₂ with
      | zero => omega
      | succ g =>
          simp only [natCharsF]
          by_cases hn : n < 10
          · simp [hn]
          · simp only [if_neg hn]
            have hd : n / 10 < n := Nat.div_lt_self (by omega) (by omega)
            rw [ih g (n / 10) (by omega) (by omega)]

/-- Decimal rendering of an integer (JavaScript `${n}` for integral numbers). -/
def intChars (i : Int) : List Char :=
  if i < 0 then '-' :: natChars i.natAbs else natChars i.toNat

theorem digitChar_isDigit (n : Nat) : (digitChar n).isDigit = true := by
  unfold digitChar
  split <;> decide

def digitVal (c : Char) : Nat := c.toNat - 48

theorem digitVal_digitChar (n : Nat) (h : n < 10) : digitVal (digitChar n) = n := by
  interval_cases n <;> rfl

theorem digitChar_inj (m n : Nat) (hm : m < 10) (hn : n < 10)
    (h : digitChar m = digitChar n) : m = n := by
  have := congrArg digitVal h
  rwa [digitVal_digitChar m hm, digitVal_digitChar n hn] at this

theorem natChars_lt (n : Nat) (h : n < 10) : natChars n = [digitChar n] := by
  rw [natChars]
  simp [natCharsF, h]

theorem natChars_ge (n : Nat) (h : ¬ n < 10) :
    natChars n = natChars (n / 10) ++ [digitChar (n % 10)] := by
  rw [natChars]
  simp only [natCharsF, if_neg h]
  rw [natChars]
  have hd : n / 10 < n := Nat.div_lt_self (by omega) (by omega)
  rw [natCharsF_congr n (n / 10 + 1) (n / 10) (by omega) (by omega)]

theorem natChars_ne_nil (n : Nat) : natChars n ≠ [] := by
  by_cases h : n < 10
  · rw [natChars_lt n h]
    simp
  · rw [natChars_ge n h]
    simp

theorem natChars_digits (n : Nat) : ∀ c ∈ natChars n, c.isDigit = true := by
  induction n using Nat.strong_induction_on with
  | _ n ih =>
    by_cases h : n < 10
    · rw [natChars_lt n h]
      intro c hc
      rw [List.mem_singleton] at hc
      exact hc ▸ digitChar_isDigit n
    · rw [natChars_ge n h]
      intro c hc
      rcases List.mem_append.mp hc with hm | hm
      · exact ih (n / 10) (Nat.div_lt_self (by omega) (by omega)) c hm
      · rw [List.mem_singleton] at hm
        exact hm ▸ digitChar_isDigit (n % 10)

theorem natChars_inj (m : Nat) : ∀ n, natChars m = natChars n → m = n := by
  induction m using Nat.strong_induction_on with
  | _ m ih =>
    intro n h
    by_cases hm : m < 10 <;> by_cases hn : n < 10
    · rw [natChars_lt m hm, natChars_lt n hn] at h
      exact digitChar_inj m n hm hn (by simpa using h)
    · exfalso
      rw [natChars_lt m hm, natChars_ge n hn] at h
      have hlen := congrArg List.length h
      have hpos : 0 < (natChars (n / 10)).length :=
        List.length_pos.mpr (natChars_ne_nil (n / 10))
      simp only [List.length_singleton, List.length_append] at hlen
      omega
    · exfalso
      rw [natChars_ge m hm, natChars_lt n hn] at h
      have hlen := congrArg List.length h
      have hpos : 0 < (natChars (m / 10)).length :=
        List.length_pos.mpr (natChars_ne_nil (m / 10))
      simp only [List.length_singleton, List.length_append] at hlen
      omega
    · rw [natChars_ge m hm, natChars_ge n hn] at h
      have hsp := List.append_inj' h rfl
      have h1 : m / 10 = n / 10 :=
        ih (m / 10) (Nat.div_lt_self (by omega) (by omega)) (n / 10) hsp.1
      have h2 : m % 10 = n % 10 := by
        have := hsp.2
        simp only [List.cons.injEq, and_true] at this
        exact digitChar_inj _ _ (Nat.mod_lt _ (by omega)) (Nat.mod_lt _ (by omega)) this
      omega

theorem isDigit_ne_pipe {c : Char} (h : c.isDigit = true) : c ≠ '|' := by
  intro hc
  subst hc
  simp [Char.isDigit] at h

theorem isDigit_ne_minus {c : Char} (h : c.isDigit = true) : c ≠ '-' := by
  intro hc
  subst hc
  simp [Char.isDigit] at h

theorem natChars_no_pipe (n : Nat) : '|' ∉ natChars n := by
  intro h
  exact isDigit_ne_pipe (natChars_digits n '|' h) rfl

theorem intChars_no_pipe (i : Int) : '|' ∉ intChars i := by
  unfold intChars
  split
  · intro h
    rcases List.mem_cons.mp h with h | h
    · exact absurd h.symm (by decide)
    · exact natChars_no_pipe _ h
  · exact natChars_no_pipe _

theorem intChars_inj (i j : Int) (h : intChars i = intChars j) : i = j := by
  unfold intChars at h
  split at h <;> split at h
  · have := natChars_inj _ _ (by simpa using h)
    omega
  · exfalso
    rcases hc : natChars j.toNat with _ | ⟨c, rest⟩
    · exact natChars_ne_nil _ hc
    · rw [hc] at h
      have hd : c.isDigit = true := natChars_digits _ c (hc ▸ List.mem_cons_self c rest)
      have : '-' = c := by simpa using congrArg (List.headI) h
      exact isDigit_ne_minus hd this.symm
  · exfalso
    rcases hc : natChars i.toNat with _ | ⟨c, rest⟩
    · exact natChars_ne_nil _ hc
    · rw [hc] at h
      have hd : c.isDigit = true := natChars_digits _ c (hc ▸ List.mem_cons_self c rest)
      have : c = '-' := by simpa using congrArg (List.headI) h
      exact isDigit_ne_minus hd this
  · have := natChars_inj _ _ h
    omega

/-- Splitting at a separator that occurs in neither left part is unambiguous. -/
theorem sepSplit (sep : Char) :
    ∀ (a b c d : List Char), sep ∉ a → sep ∉ b →
      a ++ sep :: c = b ++ sep :: d → a = b ∧ c = d := by
  intro a
  induction a with
  | nil =>
      intro b c d _ hb h
      cases b with
      | nil => simpa using h
      | cons x xs =>
          exfalso
          simp only [List.nil_append, List.cons_append, List.cons.injEq] at h
          exact hb (h.1 ▸ List.mem_cons_self x xs)
  | cons y ys ih =>
      intro b c d ha hb h
      cases b with
      | nil =>
          exfalso
          simp only [List.cons_append, List.nil_append, List.cons.injEq] at h
          exact ha (h.1 ▸ List.mem_cons_self y ys)
      | cons x xs =>
          simp only [List.cons_append, List.cons.injEq] at h
          have := ih xs c d (fun hm => ha (List.mem_cons_of_mem y hm))
            (fun hm => hb (List.mem_cons_of_mem x hm)) h.2
          exact ⟨by rw [h.1, this.1], this.2⟩

/- ===================== Data model =====================
   The `types.ts` module is not part of the corpus; the record fields below are
   inferred from their uses in `src/App.tsx` and `src/services/geminiService.ts`
   (`tx.transactionCode`, `tx.date`, `tx.description`, `tx.debit`, `tx.credit`,
   `tx.fee || 0`, `tx.vat || 0`).  Currency amounts are integers (VND). -/

structure AccountInfo where
  accountName : String
  accountNumber : String
  bankName : String
  branch : String
  deriving DecidableEq, Repr, Inhabited

structure Transaction where
  transactionCode : Option String
  date : String
  description : String
  debit : Int
  credit : Int
  fee : Int
  vat : Int
  deriving DecidableEq, Repr, Inhabited

/-- One ledger fragment: the parsed result of one chunk (`GeminiResponse`). -/
structure Frag where
  accountInfo : AccountInfo
  openingBalance : Int
  endingBalance : Int
  transactions : List Transaction
  deriving DecidableEq, Repr, Inhabited

/- ===================== Dedup fingerprint =====================
   Source: `createTxSignature`, src/App.tsx lines 1007-1020 (chunked App).
   The JavaScript builds the template string
   `${tx.date}|${tx.debit}|${tx.credit}|${normalizedCode}`; we build the same
   character sequence.  `toLowerCase` is modelled on its ASCII fragment. -/

/-- Normalized description: lower-cased, whitespace removed, first 30
characters; `"nodesc"` for an empty description. -/
def normalizedDesc (tx : Transaction) : List Char :=
  if tx.description = "" then "nodesc".data
  else ((lowerA tx.description.data).filter (fun c => !isJsWs c)).take 30

/-- Normalized code: the trimmed lower-cased transaction code when present and
non-empty, else the normalized description. -/
def normalizedCode (tx : Transaction) : List Char :=
  match tx.transactionCode with
  | some c => if c = "" then normalizedDesc tx else lowerA (trimL c.data)
  | none => normalizedDesc tx

/-- The dedup fingerprint `${date}|${debit}|${credit}|${normalizedCode}`. -/
def createTxSignature (tx : Transaction) : List Char :=
  tx.date.data ++ '|' ::
    (intChars tx.debit ++ '|' :: (intChars tx.credit ++ '|' :: normalizedCode tx))

/- ===================== Merge engine =====================
   Source: `handleMergeResults`, src/App.tsx lines 985-1097 (chunked App).
   The input list is the already index-sorted list of fragments that are
   completed and ticked for merge; the optional user-entered opening balance is
   modelled as the parsed integer (the code parses the text field with
   `parseFloat(openingBalance.replace(/\./g, "")) || 0`). -/

/-- Lower-case a string (ASCII model of `toLowerCase`). -/
def lowerStr (s : String) : String :=
  String.mk (lowerA s.data)

/-- Noise filter applied per fragment before deduplication
(src/App.tsx lines 1026-1029). -/
def filterNoise (txs : List Transaction) : List Transaction :=
  txs.filter (fun tx =>
    !(hasSubStr (lowerStr tx.description) "số dư đầu kỳ")
      && !(hasSubStr (lowerStr tx.description) "cộng phát sinh"))

/-- Walk one fragment transaction list, keeping transactions whose fingerprint
has not been seen and recording new fingerprints (src/App.tsx lines 1032-1043). -/
def collectTxs (seen : List (List Char)) :
    List Transaction → List Transaction × List (List Char)
  | [] => ([], seen)
  | tx :: rest =>
      let sig := createTxSignature tx
      if sig ∈ seen then collectTxs seen rest
      else
        let out := collectTxs (sig :: seen) rest
        (tx :: out.1, out.2)

/-- Global deduplication across fragments with one shared fingerprint set
(src/App.tsx lines 1004, 1022-1044). -/
def collectFrags (seen : List (List Char)) : List Frag → List Transaction
  | [] => []
  | f :: rest =>
      let out := collectTxs seen (filterNoise f.transactions)
      out.1 ++ collectFrags out.2 rest

/-- `String.prototype.split(sep)` for a single-character separator. -/
def splitOnChar (sep : Char) : List Char → List (List Char)
  | [] => [[]]
  | c :: t =>
      let r := splitOnChar sep t
      if c = sep then [] :: r else (c :: r.headI) :: r.tail

/-- Leading-digit integer parse, modelling `parseInt` on the date components
(non-numeric input is abstracted to 0 instead of NaN; no verified claim
depends on the resulting order). -/
def parseIntJS (l : List Char) : Int :=
  let digits := l.takeWhile Char.isDigit
  if digits = [] then 0
  else Int.ofNat (digits.foldl (fun a c => a * 10 + (c.toNat - 48)) 0)

/-- Sort key of the date comparator (src/App.tsx lines 1060-1065):
`dd/mm/yyyy` is mapped to a monotone stand-in for `Date(...).getTime()`;
anything else maps to 0.  Only the induced order is ever used. -/
def parseDateKey (s : String) : Int :=
  if s = "" then 0
  else
    match splitOnChar '/' s.data with
    | [d, m, y] => (parseIntJS y * 12 + (parseIntJS m - 1)) * 31 + parseIntJS d
    | _ => 0

/-- Sum of a projected amount over a transaction list (the source computes all
four totals in one `reduce`; src/App.tsx lines 1070-1075). -/
def sumBy (f : Transaction → Int) (txs : List Transaction) : Int :=
  (txs.map f).sum

/-- The merged ledger handed to the UI, together with the detected ending
balance and the mismatch flag used for the warning banner. -/
structure MergedLedger where
  accountInfo : AccountInfo
  transactions : List Transaction
  openingBalance : Int
  endingBalance : Int
  detectedEnding : Int
  mismatchWarning : Bool
  deriving DecidableEq, Repr

/-- The merge and reconciliation engine (`handleMergeResults`).  Returns `none`
when no fragment is eligible (the handler alerts and keeps no merged result). -/
def mergeResults (userOpening : Option Int) (frags : List Frag) : Option MergedLedger :=
  match frags with
  | [] => none
  | first :: rest =>
      let allTx := collectFrags [] (first :: rest)
      let sorted := allTx.insertionSort
        (fun a b => parseDateKey a.date ≤ parseDateKey b.date)
      let globalOpening : Int :=
        match userOpening with
        | some v => v
        | none => first.openingBalance
      let detectedEnding := ((first :: rest).getLast (List.cons_ne_nil first rest)).endingBalance
      let totalDebit := sumBy (·.debit) sorted
      let totalCredit := sumBy (·.credit) sorted
      let calculatedEnding := globalOpening + totalDebit - totalCredit
      let diff := (calculatedEnding - detectedEnding).natAbs
      some
        { accountInfo := first.accountInfo
        , transactions := sorted
        , openingBalance := globalOpening
        , endingBalance := calculatedEnding
        , detectedEnding := detectedEnding
        , mismatchWarning := decide (100 < diff) && decide (detectedEnding ≠ 0) }

/- ===================== Batch balance resolution =====================
   Source: `processBatchData`, src/services/geminiService.ts lines 891-994
   (v1.7.1 copy; the first copy at lines 330-412 is identical on these steps).
   Only the balance folds are claim-relevant; they scan fragment results in
   chunk order. -/

/-- Opening balance of the batch path: the first fragment reporting a positive
opening balance (`!foundOpening && result.openingBalance > 0`), else 0. -/
def batchOpening : List Frag → Int
  | [] => 0
  | f :: rest => if 0 < f.openingBalance then f.openingBalance else batchOpening rest

/-- Ending balance of the batch path: the accumulator keeps the most recent
positive ending balance (`if (result.endingBalance > 0)`). -/
def batchEndingAux (acc : Int) : List Frag → Int
  | [] => acc
  | f :: rest =>
      batchEndingAux (if 0 < f.endingBalance then f.endingBalance else acc) rest

def batchEnding (frags : List Frag) : Int :=
  batchEndingAux 0 frags

/- Spec-side balance resolution, modelled from the words of the specification
for comparison with the code (refinement targets, not source translations). -/

/-- Modelled from the spec: "the first fragment reporting a non-zero opening
balance". -/
def specFirstNonzeroOpening : List Frag → Option Int
  | [] => none
  | f :: rest =>
      if f.openingBalance ≠ 0 then some f.openingBalance
      else specFirstNonzeroOpening rest

/-- Modelled from the spec: "the last fragment (by chunk order) reporting a
non-zero ending balance". -/
def specLastNonzeroEnding : List Frag → Option Int
  | [] => none
  | f :: rest =>
      match specLastNonzeroEnding rest with
      | some v => some v
      | none => if f.endingBalance ≠ 0 then some f.endingBalance else none

/- ===================== Chunking strategy =====================
   Source: `handleExtractText`, src/App.tsx lines 826-877 (chunked App):
   the first 20 lines are kept as header context, the source lines are NOT
   truncated, and every chunk except the first gets the delimited header
   prepended to its payload. -/

structure Chunk where
  bodyLines : List String
  data : String
  deriving DecidableEq, Repr

/-- `Array.prototype.join("\n")`. -/
def joinLines : List String → String
  | [] => ""
  | [x] => x
  | x :: y :: xs => x ++ "\n" ++ joinLines (y :: xs)

/-- Contiguous groups of `n` elements (the `for (i = 0; i < len; i += n)`
slicing loop).  The `n = 0` branch is unreachable in the source, where the
chunk size is at least 1. -/
def chunksOf (n : Nat) : List α → List (List α)
  | [] => []
  | a :: t =>
      if h : n = 0 then [a :: t]
      else (a :: t).take n :: chunksOf n ((a :: t).drop n)
termination_by l => l.length
decreasing_by
  simp only [List.length_drop, List.length_cons]
  omega

/-- Header delimiters of the prepended context block
(src/App.tsx line 855). -/
def wrapHeader (header body : String) : String :=
  "--- HEADER CONTEXT (INFO ONLY - DO NOT EXTRACT) ---\n" ++ header
    ++ "\n--- END HEADER ---\n\n" ++ body

/-- Build one chunk from its ordinal and body lines: the wrapped header is
prepended for every chunk after the first whenever the header text is
non-empty (`if (i > 0 && headerText)`; the loop counter is the line offset,
which is positive exactly for the chunks after the first). -/
def mkChunk (header : String) (p : Nat × List String) : Chunk :=
  { bodyLines := p.2
  , data :=
      if p.1 ≠ 0 ∧ header ≠ "" then wrapHeader header (joinLines p.2)
      else joinLines p.2 }

/-- The text chunking strategy: header context is the join of the first 20
lines; the source lines are split whole, with no header rows removed. -/
def textChunks (allLines : List String) (chunkSize : Nat) : List Chunk :=
  (chunksOf chunkSize allLines).enum.map (mkChunk (joinLines (allLines.take 20)))

/- ===================== Waterfall dispatcher =====================
   The corpus holds two dispatcher generations.  The v1.7.1 dispatcher
   (`callAIUnified`, src/services/geminiService.ts lines 692-778) retries
   network errors per credential and otherwise advances to the next credential;
   the earlier dispatcher (lines 186-238) has no per-credential retry and
   throws immediately on any non-quota error.  A provider call is abstracted as
   an environment mapping (model, key index, attempt index) to an outcome;
   `String(err).toLowerCase()` becomes ASCII lower-casing of the error text,
   and backoff delays are abstracted away (they do not change control flow). -/

inductive CallResult where
  | ok (response : String)
  | err (msg : String)
  deriving DecidableEq, Repr

def PRO_MODEL : String := "gemini-3-pro-preview"

def FLASH_MODEL : String := "gemini-2.5-flash"

/-- v1.7.1 network-error classification (lines 739-745). -/
def isNetworkErrV2 (msg : String) : Bool :=
  hasSubStr msg "xhr error" || hasSubStr msg "rpc failed" || hasSubStr msg "fetch failed"
    || hasSubStr msg "network error" || hasSubStr msg "503" || hasSubStr msg "500"

/-- v1.7.1 quota-error classification (lines 747-751). -/
def isQuotaErrV2 (msg : String) : Bool :=
  hasSubStr msg "429" || hasSubStr msg "resource exhausted"
    || hasSubStr msg "too many requests" || hasSubStr msg "quota"

/-- Early dispatcher quota classification (lines 213-217): 503 and
"overloaded" also count as quota there; everything else throws. -/
def isQuotaErrV1 (msg : String) : Bool :=
  hasSubStr msg "429" || hasSubStr msg "resource exhausted"
    || hasSubStr msg "too many requests" || hasSubStr msg "503"
    || hasSubStr msg "overloaded"

inductive KeyOutcome where
  | success (response : String)
  | moveOn (lastErr : String)
  deriving DecidableEq, Repr

/-- The v1.7.1 per-credential `while (keyAttempts < MAX_KEY_ATTEMPTS)` loop
(lines 719-771): retry the same credential only for a network-classified error
and only while fewer than 3 attempts were made; any other error (quota or
fatal) ends the loop and the dispatcher moves to the next credential.  Returns
the loop outcome together with the number of attempts made. -/
def runKeyV2F : Nat → (Nat → CallResult) → Nat → KeyOutcome × Nat
  | 0, _, attemptIdx => (.moveOn "", attemptIdx)
  | fuel + 1, outcome, attemptIdx =>
      match outcome attemptIdx with
      | .ok s => (.success s, attemptIdx + 1)
      | .err e =>
          if isNetworkErrV2 (lowerStr e) = true ∧ attemptIdx + 1 < 3 then
            runKeyV2F fuel outcome (attemptIdx + 1)
          else (.moveOn e, attemptIdx + 1)

def runKeyV2 (outcome : Nat → CallResult) (attemptIdx : Nat) : KeyOutcome × Nat :=
  runKeyV2F 3 outcome attemptIdx

/-- Key loop of the v1.7.1 dispatcher, threading `lastError`. -/
def scanKeysV2 (envm : Nat → Nat → CallResult) :
    List Nat → Option String → Except (Option String) String
  | [], le => .error le
  | i :: rest, le =>
      match runKeyV2 (envm i) 0 with
      | (.success s, _) => .ok s
      | (.moveOn e, _) => scanKeysV2 envm rest (some e)

/-- Model loop of the v1.7.1 dispatcher (`for (const model of modelsToTry)`). -/
def scanModelsV2 (env : String → Nat → Nat → CallResult) (numKeys : Nat) :
    List String → Option String → Except (Option String) String
  | [], le => .error le
  | m :: rest, le =>
      match scanKeysV2 (env m) (List.range numKeys) le with
      | .ok s => .ok s
      | .error le2 => scanModelsV2 env numKeys rest le2

def noKeysMsg : String :=
  "Chưa cấu hình API Key. Vui lòng thêm VITE_API_KEY vào biến môi trường trên Vercel (Hỗ trợ nhiều key cách nhau dấu phẩy)."

/-- Final all-exhausted error (line 777), carrying the last recorded error. -/
def allFailedMsg (lastErr : Option String) : String :=
  "Tất cả các Key & Model đều thất bại. Vui lòng thử lại sau giây lát. Lỗi cuối cùng: "
    ++ lastErr.getD "null"

/-- The v1.7.1 dispatcher `callAIUnified` (lines 692-778). -/
def callAIUnifiedV2 (env : String → Nat → Nat → CallResult) (keys : List String) :
    Except String String :=
  if keys.isEmpty then .error noKeysMsg
  else
    match scanModelsV2 env keys.length [PRO_MODEL, FLASH_MODEL] none with
    | .ok s => .ok s
    | .error le => .error (allFailedMsg le)

inductive DispatchStep where
  | done (response : String)
  | thrown (e : String)
  | fellThrough (lastErr : Option String)
  deriving DecidableEq, Repr

/-- Key loop of the earlier dispatcher (lines 206-232): one attempt per
credential; quota-classified errors rotate to the next credential, anything
else is thrown immediately. -/
def scanKeysV1 (envm : Nat → CallResult) :
    List Nat → Option String → DispatchStep
  | [], le => .fellThrough le
  | i :: rest, le =>
      match envm i with
      | .ok s => .done s
      | .err e =>
          if isQuotaErrV1 (lowerStr e) then scanKeysV1 envm rest (some e)
          else .thrown e

/-- Model loop of the earlier dispatcher. -/
def scanModelsV1 (env : String → Nat → CallResult) (numKeys : Nat) :
    List String → Option String → DispatchStep
  | [], le => .fellThrough le
  | m :: rest, le =>
      match scanKeysV1 (env m) (List.range numKeys) le with
      | .done s => .done s
      | .thrown e => .thrown e
      | .fellThrough le2 => scanModelsV1 env numKeys rest le2

/-- The earlier dispatcher `callAIUnified` (lines 186-238): no per-credential
retry; a non-quota error propagates at once. -/
def callAIUnifiedV1 (env : String → Nat → CallResult) (keys : List String) :
    Except String String :=
  if keys.isEmpty then .error noKeysMsg
  else
    match scanModelsV1 env keys.length [PRO_MODEL, FLASH_MODEL] none with
    | .done s => .ok s
    | .thrown e => .error e
    | .fellThrough le => .error (allFailedMsg le)

/- ===================== JSON values and JSON.parse =====================
   A model of the structural objects produced by `JSON.parse`.  Number tokens
   are kept as their lexemes (the claims only compare structural equality of
   parse results; the concrete inputs carry integral numbers).  Objects keep
   their fields in insertion order. -/

inductive JVal where
  | null
  | bool (b : Bool)
  | num (lexeme : String)
  | str (s : String)
  | arr (elems : List JVal)
  | obj (fields : List (String × JVal))

def hexVal (c : Char) : Option Nat :=
  if c.isDigit then some (c.toNat - 48)
  else if 'a' ≤ c ∧ c ≤ 'f' then some (c.toNat - 87)
  else if 'A' ≤ c ∧ c ≤ 'F' then some (c.toNat - 55)
  else none

def escChar (e : Char) : Option Char :=
  if e = '"' then some '"'
  else if e = '\\' then some '\\'
  else if e = '/' then some '/'
  else if e = 'b' then some '\x08'
  else if e = 'f' then some '\x0c'
  else if e = 'n' then some '\n'
  else if e = 'r' then some '\r'
  else if e = 't' then some '\t'
  else none

/-- JSON string-body scanner: decodes escapes, rejects raw control characters,
stops at the closing quote.  Returns the decoded content and the rest. -/
def parseStrBody : List Char → Option (List Char × List Char)
  | [] => none
  | '"' :: t => some ([], t)
  | '\\' :: 'u' :: a :: b :: c :: d :: t =>
      match hexVal a, hexVal b, hexVal c, hexVal d with
      | some ha, some hb, some hc, some hd =>
          (parseStrBody t).map
            (fun r => (Char.ofNat (((ha * 16 + hb) * 16 + hc) * 16 + hd) :: r.1, r.2))
      | _, _, _, _ => none
  | '\\' :: e :: t =>
      match escChar e with
      | some ce => (parseStrBody t).map (fun r => (ce :: r.1, r.2))
      | none => none
  | c :: t =>
      if c.toNat < 32 then none
      else (parseStrBody t).map (fun r => (c :: r.1, r.2))

def parseFracOpt (l : List Char) : Option (List Char × List Char) :=
  match l with
  | '.' :: t =>
      let ds := t.takeWhile Char.isDigit
      if ds = [] then none else some ('.' :: ds, t.drop ds.length)
  | _ => some ([], l)

def parseExpOpt (l : List Char) : Option (List Char × List Char) :=
  match l with
  | c :: t =>
      if c = 'e' ∨ c = 'E' then
        match t with
        | s :: t2 =>
            if s = '+' ∨ s = '-' then
              let ds := t2.takeWhile Char.isDigit
              if ds = [] then none else some (c :: s :: ds, t2.drop ds.length)
            else
              let ds := t.takeWhile Char.isDigit
              if ds = [] then none else some (c :: ds, t.drop ds.length)
        | [] => none
      else some ([], l)
  | [] => some ([], [])

def parseNumCore (l : List Char) : Option (List Char × List Char) :=
  let intPart := l.takeWhile Char.isDigit
  if intPart = [] then none
  else if 1 < intPart.length ∧ intPart.headI = '0' then none
  else
    match parseFracOpt (l.drop intPart.length) with
    | none => none
    | some f =>
        match parseExpOpt f.2 with
        | none => none
        | some x => some (intPart ++ f.1 ++ x.1, x.2)

/-- JSON number lexer (sign, integer part without leading zeros, optional
fraction and exponent). -/
def parseNumLex (l : List Char) : Option (List Char × List Char) :=
  match l with
  | '-' :: t => (parseNumCore t).map (fun r => ('-' :: r.1, r.2))
  | _ => parseNumCore l

mutual

/-- Fuel-indexed recursive-descent JSON value parser (model of `JSON.parse`);
the top-level entry supplies ample fuel. -/
def parseVal : Nat → List Char → Option (JVal × List Char)
  | 0, _ => none
  | fuel + 1, l0 =>
      let l := l0.dropWhile isJsonWs
      if "true".data.isPrefixOf l then some (.bool true, l.drop 4)
      else if "false".data.isPrefixOf l then some (.bool false, l.drop 5)
      else if "null".data.isPrefixOf l then some (.null, l.drop 4)
      else
        match l with
        | '"' :: t => (parseStrBody t).map (fun r => (.str (String.mk r.1), r.2))
        | '\x7b' :: t => parseObjStart fuel t
        | '[' :: t => parseArrStart fuel t
        | _ => (parseNumLex l).map (fun r => (.num (String.mk r.1), r.2))

def parseArrStart : Nat → List Char → Option (JVal × List Char)
  | 0, _ => none
  | fuel + 1, l =>
      match l.dropWhile isJsonWs with
      | ']' :: t => some (.arr [], t)
      | l2 => (parseVal fuel l2).bind (fun r => parseArrRest fuel r.2 [r.1])

def parseArrRest : Nat → List Char → List JVal → Option (JVal × List Char)
  | 0, _, _ => none
  | fuel + 1, l, acc =>
      match l.dropWhile isJsonWs with
      | ',' :: t => (parseVal fuel t).bind (fun r => parseArrRest fuel r.2 (acc ++ [r.1]))
      | ']' :: t => some (.arr acc, t)
      | _ => none

def parseObjStart : Nat → List Char → Option (JVal × List Char)
  | 0, _ => none
  | fuel + 1, l =>
      match l.dropWhile isJsonWs with
      | '\x7d' :: t => some (.obj [], t)
      | l2 => parseObjField fuel l2 []

def parseObjField : Nat → List Char → List (String × JVal) → Option (JVal × List Char)
  | 0, _, _ => none
  | fuel + 1, l, acc =>
      match l with
      | '"' :: t =>
          (parseStrBody t).bind (fun rk =>
            match rk.2.dropWhile isJsonWs with
            | ':' :: t2 =>
                (parseVal fuel t2).bind (fun rv =>
                  parseObjRest fuel rv.2 (acc ++ [(String.mk rk.1, rv.1)]))
            | _ => none)
      | _ => none

def parseObjRest : Nat → List Char → List (String × JVal) → Option (JVal × List Char)
  | 0, _, _ => none
  | fuel + 1, l, acc =>
      match l.dropWhile isJsonWs with
      | ',' :: t => parseObjField fuel (t.dropWhile isJsonWs) acc
      | '\x7d' :: t => some (.obj acc, t)
      | _ => none

end

/-- Model of `JSON.parse`: parse one value, then require only whitespace to
remain. -/
def jsonParse (s : String) : Option JVal :=
  match parseVal (s.data.length + 2) s.data with
  | some r => if r.2.dropWhile isJsonWs = [] then some r.1 else none
  | none => none

/- ===================== Structured-output repair =====================
   Source: `robustJSONRepair` and `cleanAndParseJSON`,
   src/services/geminiService.ts lines 492-633 (v1.7.1 copy). -/

/-- The segment walk of `robustJSONRepair` (lines 497-533): split the text
into alternating syntax and string-literal segments, tracking unescaped
quotes; `bsRun` is the length of the current backslash run, which reproduces
the backwards escape-parity lookup of the source. -/
def segGo : List Char → List Char → List (List Char) → Bool → Nat → List (List Char)
  | [], cur, acc, _, _ => acc ++ [cur]
  | c :: rest, cur, acc, inStr, bsRun =>
      if c = '"' then
        if bsRun % 2 = 1 then segGo rest (cur ++ [c]) acc inStr 0
        else if inStr then segGo rest [] (acc ++ [cur ++ [c]]) false 0
        else segGo rest [c] (acc ++ [cur]) true 0
      else segGo rest (cur ++ [c]) acc inStr (if c = '\\' then bsRun + 1 else 0)

def segmentize (l : List Char) : List (List Char) :=
  segGo l [] [] false 0

/-- Escape table of the string-segment control-character replacement
(lines 541-550): known controls become their JSON escapes, other controls are
stripped. -/
def escCtrl (c : Char) : List Char :=
  if c = '\x08' then ['\\', 'b']
  else if c = '\x0c' then ['\\', 'f']
  else if c = '\n' then ['\\', 'n']
  else if c = '\r' then ['\\', 'r']
  else if c = '\t' then ['\\', 't']
  else []

/-- String-segment handling: `seg.replace(/[\u0000-\u001F]/g, ...)`. -/
def escCtrlSeg (seg : List Char) : List Char :=
  (seg.map (fun c => if c.toNat < 32 then escCtrl c else [c])).flatten

/-- Syntax-segment control stripping:
`[\u0000-\u0008\u000B\u000C\u000E-\u001F]` removed (line 561). -/
def stripCtrlSyntax (seg : List Char) : List Char :=
  seg.filter (fun c =>
    !(c.toNat ≤ 8 || c.toNat = 11 || c.toNat = 12 || (14 ≤ c.toNat && c.toNat ≤ 31)))

/-- Single-line comment removal in syntax segments, `/\/\/.*$/gm`
(line 557); fuel-driven scanner, the wrapper supplies ample fuel. -/
def stripCommentsF : Nat → List Char → List Char
  | 0, l => l
  | _, [] => []
  | fuel + 1, '/' :: '/' :: t => stripCommentsF fuel (t.dropWhile (fun c => c ≠ '\n'))
  | fuel + 1, c :: t => c :: stripCommentsF fuel t

def isWordChar (c : Char) : Bool :=
  c.isAlpha || c.isDigit || c = '_'

/-- Bare-key quoting in syntax segments,
`([\x7b,]\s*)([a-zA-Z0-9_]+)\s*: -> $1"$2":` (line 564); the scanner resumes
after each replacement, as the global regex does. -/
def quoteKeysF : Nat → List Char → List Char
  | 0, l => l
  | _, [] => []
  | fuel + 1, c :: t =>
      if c = '\x7b' ∨ c = ',' then
        let ws := t.takeWhile isJsWs
        let r1 := t.drop ws.length
        let word := r1.takeWhile isWordChar
        let r2 := r1.drop word.length
        let ws2 := r2.takeWhile isJsWs
        let r3 := r2.drop ws2.length
        match word, r3 with
        | _ :: _, ':' :: r4 =>
            c :: ws ++ '"' :: word ++ '"' :: ':' :: quoteKeysF fuel r4
        | _, _ => c :: quoteKeysF fuel t
      else c :: quoteKeysF fuel t

/-- Trailing-comma removal, `,(\s*[\x7d\]]) -> $1` (lines 566 and 592);
fuel-driven scanner with regex resume semantics. -/
def remTrailCommaF : Nat → List Char → List Char
  | 0, l => l
  | _, [] => []
  | fuel + 1, c :: t =>
      if c = ',' then
        let ws := t.takeWhile isJsWs
        match t.drop ws.length with
        | b :: r =>
            if b = '\x7d' ∨ b = ']' then ws ++ b :: remTrailCommaF fuel r
            else c :: remTrailCommaF fuel t
        | [] => c :: remTrailCommaF fuel t
      else c :: remTrailCommaF fuel t

def stripCommentsL (l : List Char) : List Char :=
  stripCommentsF (l.length + 1) l

def quoteKeysL (l : List Char) : List Char :=
  quoteKeysF (l.length + 1) l

def remTrailCommaL (l : List Char) : List Char :=
  remTrailCommaF (l.length + 1) l

/-- Per-segment processing (lines 536-569): string segments get control
characters escaped or stripped; syntax segments get comments removed, controls
stripped, bare keys quoted and trailing commas removed, in source order. -/
def processSeg (seg : List Char) : List Char :=
  match seg with
  | '"' :: _ => escCtrlSeg seg
  | _ => remTrailCommaL (quoteKeysL (stripCtrlSyntax (stripCommentsL seg)))

/-- Truncation fallback (lines 584-589): close after the last lone brace past
the `"transactions"` key. -/
def truncFallback (l : List Char) (ti : Nat) : List Char :=
  match lastIdxSub ['\x7d'] l with
  | some lb => if ti < lb then l.take (lb + 1) ++ [']', '\x7d'] else l
  | none => l

/-- Truncation repair (lines 576-590): when the text does not end in a brace
but contains a `"transactions"` key, close after the last complete array
element, else after the last brace. -/
def truncFix (l : List Char) : List Char :=
  let hasClosingRoot := l.getLast? = some '\x7d'
  match firstIdxSub "\"transactions\"".data l with
  | none => l
  | some ti =>
      if hasClosingRoot then l
      else
        match lastIdxSub ['\x7d', ','] l with
        | some le => if ti < le then l.take (le + 1) ++ [']', '\x7d'] else truncFallback l ti
        | none => truncFallback l ti

/-- `robustJSONRepair` (lines 492-595): trim and normalize smart quotes,
process segments, close truncated output, then run the final global
trailing-comma cleanup. -/
def robustJSONRepair (s : String) : String :=
  let l0 := (trimL s.data).map
    (fun c => if c = '“' ∨ c = '”' then '"' else c)
  let l1 := ((segmentize l0).map processSeg).flatten
  let l2 := truncFix l1
  String.mk (remTrailCommaL l2)

/-- Fuel-driven scanner replacing every occurrence of a non-empty pattern `p`
by nothing, resuming after each replacement (`String.prototype.replace` with a
global literal pattern and empty replacement); `repAll` supplies ample fuel. -/
def repAllF : Nat → List Char → List Char → List Char
  | 0, _, l => l
  | _, _, [] => []
  | fuel + 1, p, c :: t =>
      if p.isPrefixOf (c :: t) = true ∧ p ≠ [] then
        repAllF fuel p ((c :: t).drop p.length)
      else c :: repAllF fuel p t

def repAll (p l : List Char) : List Char :=
  repAllF (l.length + 1) p l

/-- Code-fence removal of `repairSyntax` (lines 602-606): strip all
occurrences of three backticks followed by `json`, then all occurrences of
three backticks, then trim. -/
def removeFences (l : List Char) : List Char :=
  repAll ("\x60\x60\x60".data) (repAll ("\x60\x60\x60json".data) l)

/-- `cleanAndParseJSON` (lines 597-633): reject blank input, strip fences and
trim, try a direct parse, then the substring from the first brace, then the
robust repair of that substring. -/
def cleanAndParseJSON (text : String) : Except String JVal :=
  if trimL text.data = [] then
    .error "AI trả về dữ liệu rỗng. (Có thể do bộ lọc an toàn hoặc lỗi mạng)"
  else
    let cleaned := trimL (removeFences text.data)
    match jsonParse (String.mk cleaned) with
    | some v => .ok v
    | none =>
        match firstIdxSub ['\x7b'] cleaned with
        | some i =>
            let candidate := cleaned.drop i
            match jsonParse (String.mk candidate) with
            | some v => .ok v
            | none =>
                match jsonParse (robustJSONRepair (String.mk candidate)) with
                | some v => .ok v
                | none => .error "Lỗi cấu trúc JSON (Sửa thất bại)"
        | none => .error "Không tìm thấy cấu trúc JSON hợp lệ."

/- ===================== General lemmas ===================== -/

theorem repAllF_id (p : List Char) :
    ∀ (l : List Char) (fuel : Nat), hasSubL p l = false → repAllF fuel p l = l := by
  intro l
  induction l with
  | nil =>
      intro fuel _
      cases fuel <;> rfl
  | cons c t ih =>
      intro fuel h
      simp only [hasSubL, Bool.or_eq_false_iff] at h
      cases fuel with
      | zero => rfl
      | succ f =>
          show (if p.isPrefixOf (c :: t) = true ∧ p ≠ [] then _ else _) = _
          rw [if_neg]
          · rw [ih f h.2]
          · intro hc
            rw [h.1] at hc
            exact Bool.false_ne_true hc.1

theorem repAll_id (p l : List Char) (h : hasSubL p l = false) : repAll p l = l :=
  repAllF_id p l (l.length + 1) h

theorem hasSubL_extend (p q l : List Char) (hpq : p <+: q)
    (h : hasSubL p l = false) : hasSubL q l = false := by
  by_contra hq
  rw [Bool.not_eq_false, hasSubL_spec] at hq
  rw [← Bool.not_eq_true, hasSubL_spec] at h
  exact h (hpq.isInfix.trans hq)

theorem removeFences_id (l : List Char)
    (h : hasSubL "\x60\x60\x60".data l = false) : removeFences l = l := by
  unfold removeFences
  rw [repAll_id _ _ (hasSubL_extend _ _ _ ⟨"json".data, by decide⟩ h), repAll_id _ _ h]

theorem escCtrlSeg_id (seg : List Char) (h : ∀ c ∈ seg, 32 ≤ c.toNat) :
    escCtrlSeg seg = seg := by
  unfold escCtrlSeg
  induction seg with
  | nil => rfl
  | cons c t ih =>
      have hc := h c (List.mem_cons_self c t)
      simp only [List.map_cons, List.flatten_cons, if_neg (by omega : ¬ c.toNat < 32)]
      rw [ih (fun d hd => h d (List.mem_cons_of_mem c hd))]
      rfl

theorem collectTxs_subset (seen : List (List Char)) (l : List Transaction)
    (tx : Transaction) (h : tx ∈ (collectTxs seen l).1) : tx ∈ l := by
  induction l generalizing seen with
  | nil => simp [collectTxs] at h
  | cons a t ih =>
      simp only [collectTxs] at h
      by_cases hs : createTxSignature a ∈ seen
      · rw [if_pos hs] at h
        exact List.mem_cons_of_mem a (ih seen h)
      · rw [if_neg hs] at h
        rcases List.mem_cons.mp h with h | h
        · exact h ▸ List.mem_cons_self a t
        · exact List.mem_cons_of_mem a (ih _ h)

theorem collectFrags_mem (seen : List (List Char)) (fs : List Frag)
    (tx : Transaction) (h : tx ∈ collectFrags seen fs) :
    ∃ f ∈ fs, tx ∈ f.transactions := by
  induction fs generalizing seen with
  | nil => simp [collectFrags] at h
  | cons f t ih =>
      simp only [collectFrags] at h
      rcases List.mem_append.mp h with h | h
      · refine ⟨f, List.mem_cons_self f t, ?_⟩
        have := collectTxs_subset seen _ tx h
        exact (List.mem_filter.mp this).1
      · obtain ⟨g, hg, hgt⟩ := ih _ h
        exact ⟨g, List.mem_cons_of_mem f hg, hgt⟩

theorem chunksOf_flatten (n : Nat) (l : List α) : (chunksOf n l).flatten = l := by
  suffices H : ∀ (k : Nat) (l : List α), l.length ≤ k → (chunksOf n l).flatten = l by
    exact H l.length l le_rfl
  intro k
  induction k with
  | zero =>
      intro l h
      cases l with
      | nil => rw [chunksOf]; rfl
      | cons a t => simp at h
  | succ k ih =>
      intro l h
      cases l with
      | nil => rw [chunksOf]; rfl
      | cons a t =>
          rw [chunksOf]
          by_cases hn : n = 0
          · simp [hn]
          · rw [dif_neg hn]
            simp only [List.flatten_cons]
            simp only [List.length_cons] at h
            rw [ih ((a :: t).drop n)
              (by simp only [List.length_drop, List.length_cons]; omega)]
            exact List.take_append_drop n (a :: t)

theorem chunksOf_pos_len (n : Nat) (l : List α) (hl : l ≠ []) :
    0 < (chunksOf n l).length := by
  cases l with
  | nil => exact absurd rfl hl
  | cons a t =>
      rw [chunksOf]
      by_cases hn : n = 0
      · simp [hn]
      · rw [dif_neg hn]
        simp

theorem chunksOf_two_len (n : Nat) (l : List α) (hn : 1 ≤ n)
    (h : 2 ≤ (chunksOf n l).length) : n < l.length := by
  cases l with
  | nil => simp [chunksOf] at h
  | cons a t =>
      rw [chunksOf] at h
      rw [dif_neg (by omega : ¬ n = 0)] at h
      simp only [List.length_cons] at h
      have hne : chunksOf n ((a :: t).drop n) ≠ [] := by
        intro hnil
        rw [hnil] at h
        simp at h
      have hdrop : (a :: t).drop n ≠ [] := by
        intro hd
        apply hne
        rw [hd, chunksOf]
      have hlen : ¬ ((a :: t).length ≤ n) :=
        fun hle => hdrop (List.drop_eq_nil_iff.mpr hle)
      simp only [List.length_cons] at hlen ⊢
      omega

theorem joinLines_two_ne (x y : String) (r : List String) :
    joinLines (x :: y :: r) ≠ "" := by
  intro h
  have hlen := congrArg String.length h
  rw [joinLines] at hlen
  simp only [String.length_append] at hlen
  have h1 : ("\n" : String).length = 1 := by decide
  have h2 : ("" : String).length = 0 := by decide
  omega

theorem batchOpening_find (frags : List Frag) :
    batchOpening frags =
      ((frags.find? (fun f => decide (0 < f.openingBalance))).map Frag.openingBalance).getD 0 := by
  induction frags with
  | nil => rfl
  | cons f t ih =>
      by_cases h : 0 < f.openingBalance
      · rw [List.find?_cons_of_pos t (by simpa using h)]
        simp [batchOpening, h]
      · rw [List.find?_cons_of_neg t (by simpa using h)]
        simp only [batchOpening, if_neg h]
        exact ih

theorem batchEndingAux_find (p : Frag → Bool) :
    ∀ (l : List Frag) (acc : Int),
      (p = fun f => decide (0 < f.endingBalance)) →
      batchEndingAux acc l = ((l.reverse.find? p).map Frag.endingBalance).getD acc := by
  intro l
  induction l with
  | nil => intro acc _; rfl
  | cons f t ih =>
      intro acc hp
      simp only [batchEndingAux, List.reverse_cons, List.find?_append]
      rw [ih _ hp]
      cases hfind : t.reverse.find? p with
      | some g => simp
      | none =>
          subst hp
          by_cases h : 0 < f.endingBalance
          · rw [List.find?_cons_of_pos [] (by simpa using h)]
            simp [h]
          · rw [List.find?_cons_of_neg [] (by simpa using h)]
            simp [h]

theorem batchEnding_find (frags : List Frag) :
    batchEnding frags =
      ((frags.reverse.find? (fun f => decide (0 < f.endingBalance))).map
        Frag.endingBalance).getD 0 :=
  batchEndingAux_find _ frags 0 rfl

theorem runKeyV2_nonretry (outcome : Nat → CallResult) (e : String)
    (h0 : outcome 0 = .err e) (hn : isNetworkErrV2 (lowerStr e) = false) :
    runKeyV2 outcome 0 = (.moveOn e, 1) := by
  simp [runKeyV2, runKeyV2F, h0, hn]

theorem runKeyV2_network_cap (outcome : Nat → CallResult) (e : String)
    (hall : ∀ a, outcome a = .err e)
    (hn : isNetworkErrV2 (lowerStr e) = true) :
    runKeyV2 outcome 0 = (.moveOn e, 3) := by
  simp [runKeyV2, runKeyV2F, hall 0, hall 1, hall 2, hn]

theorem scanKeysV2_allMove (envm : Nat → Nat → CallResult) (e : String)
    (h : ∀ i, runKeyV2 (envm i) 0 = (.moveOn e, 1)) :
    ∀ (idxs : List Nat) (le : Option String), idxs ≠ [] →
      scanKeysV2 envm idxs le = .error (some e) := by
  intro idxs
  induction idxs with
  | nil => intro le h0; exact absurd rfl h0
  | cons i rest ih =>
      intro le _
      simp only [scanKeysV2, h i]
      cases rest with
      | nil => rfl
      | cons j r => exact ih _ (by simp)

theorem scanModelsV2_allMove (env : String → Nat → Nat → CallResult) (numKeys : Nat)
    (e : String) (h : ∀ m i, runKeyV2 (env m i) 0 = (.moveOn e, 1))
    (hk : 0 < numKeys) :
    ∀ (models : List String) (le : Option String), models ≠ [] →
      scanModelsV2 env numKeys models le = .error (some e) := by
  intro models
  induction models with
  | nil => intro le h0; exact absurd rfl h0
  | cons m rest ih =>
      intro le _
      have hr : List.range numKeys ≠ [] := by
        simp only [ne_eq, List.range_eq_nil]
        omega
      simp only [scanModelsV2]
      rw [scanKeysV2_allMove (env m) e (h m) _ le hr]
      cases rest with
      | nil => rfl
      | cons m2 r => exact ih _ (by simp)

theorem callAIUnifiedV2_allFatal (env : String → Nat → Nat → CallResult)
    (keys : List String) (e : String) (hk : keys ≠ [])
    (hfatal : ∀ m k a, env m k a = .err e)
    (hn : isNetworkErrV2 (lowerStr e) = false) :
    callAIUnifiedV2 env keys = .error (allFailedMsg (some e)) := by
  have hmove : ∀ m i, runKeyV2 (env m i) 0 = (.moveOn e, 1) :=
    fun m i => runKeyV2_nonretry (env m i) e (hfatal m i 0) hn
  unfold callAIUnifiedV2
  rw [if_neg (by simp [List.isEmpty_iff, hk])]
  rw [scanModelsV2_allMove env keys.length e hmove
    (List.length_pos.mpr hk) [PRO_MODEL, FLASH_MODEL] none (by simp)]

theorem callAIUnifiedV1_fatal (env : String → Nat → CallResult)
    (keys : List String) (e : String) (hk : keys ≠ [])
    (h0 : env PRO_MODEL 0 = .err e)
    (hq : isQuotaErrV1 (lowerStr e) = false) :
    callAIUnifiedV1 env keys = .error e := by
  cases keys with
  | nil => exact absurd rfl hk
  | cons k ks =>
      simp only [callAIUnifiedV1, List.isEmpty_cons, Bool.false_eq_true, if_false,
        List.length_cons, List.range_succ_eq_map, scanModelsV1, scanKeysV1, h0, hq,
        Bool.false_eq_true, if_false]

/- ===================== Claims ===================== -/

def c1frag1 : Frag :=
  { accountInfo := default, openingBalance := 0, endingBalance := 0, transactions := [] }

def c1frag2 : Frag :=
  { accountInfo := default, openingBalance := 500, endingBalance := 0, transactions := [] }

/-- C1, counterexample: with no user-entered value and fragments whose opening
balances are 0 then 500, the merge takes the first fragment value 0, not the
first non-zero value 500 that the claim prescribes. -/
theorem C1_counterexample :
    (mergeResults none [c1frag1, c1frag2]).map MergedLedger.openingBalance = some 0 ∧
    specFirstNonzeroOpening [c1frag1, c1frag2] = some 500 ∧ (0 : Int) ≠ 500 :=
  ⟨by decide, by decide, by decide⟩

/-- C1, amended: the merged opening balance is the explicit user-entered value
when one is given, otherwise the opening balance of the first included fragment as
is (zero-defaulted, with no non-zero scan); the batch path `processBatchData`
instead takes the first fragment reporting a positive opening balance. -/
theorem C1_amended :
    (∀ (u : Int) (f : Frag) (rest : List Frag),
      (mergeResults (some u) (f :: rest)).map MergedLedger.openingBalance = some u) ∧
    (∀ (f : Frag) (rest : List Frag),
      (mergeResults none (f :: rest)).map MergedLedger.openingBalance =
        some f.openingBalance) ∧
    (∀ frags : List Frag,
      batchOpening frags =
        ((frags.find? (fun f => decide (0 < f.openingBalance))).map
          Frag.openingBalance).getD 0) :=
  ⟨fun _ _ _ => rfl, fun _ _ => rfl, batchOpening_find⟩

def c2tx : Transaction :=
  { transactionCode := none, date := "01/01/2024", description := "tien ve",
    debit := 100, credit := 0, fee := 0, vat := 0 }

def c2frag : Frag :=
  { accountInfo := default, openingBalance := 0, endingBalance := 999,
    transactions := [c2tx] }

/-- C2, counterexample: a single fragment states ending balance 999, but the
ending balance field of the merged ledger holds the computed value
opening + debits - credits = 100, not the stated closing figure. -/
theorem C2_counterexample :
    (mergeResults none [c2frag]).map MergedLedger.endingBalance = some 100 ∧
    specLastNonzeroEnding [c2frag] = some 999 ∧ (100 : Int) ≠ 999 :=
  ⟨by decide, by decide, by decide⟩

/-- C2, amended: in the merge engine the ending
balance of the last included fragment (zero-defaulted, with no non-zero scan)
is only the detected figure used by the mismatch check, while the ending
balance of the merged ledger is the
computed opening + total debit - total credit; the batch path
`processBatchData` does return the last fragment reporting a positive ending
balance. -/
theorem C2_amended :
    (∀ (u : Option Int) (f : Frag) (rest : List Frag),
      (mergeResults u (f :: rest)).map MergedLedger.detectedEnding =
        some (((f :: rest).getLast (List.cons_ne_nil f rest)).endingBalance)) ∧
    (∀ (u : Option Int) (f : Frag) (rest : List Frag),
      ∃ m, mergeResults u (f :: rest) = some m ∧
        m.endingBalance =
          m.openingBalance + sumBy (fun t => t.debit) m.transactions
            - sumBy (fun t => t.credit) m.transactions) ∧
    (∀ frags : List Frag,
      batchEnding frags =
        ((frags.reverse.find? (fun f => decide (0 < f.endingBalance))).map
          Frag.endingBalance).getD 0) :=
  ⟨fun _ _ _ => rfl, fun _ _ _ => ⟨_, rfl, rfl⟩, batchEnding_find⟩

def c3env : String → Nat → Nat → CallResult := fun _ k _ =>
  if k = 0 then .err "permission denied" else .ok "KQ"

/-- C3, counterexample: "permission denied" is classified neither as network
nor as quota (a fatal failure), yet the v1.7.1 dispatcher does not abort: it
advances to the second credential and returns its success instead of
propagating the error. -/
theorem C3_counterexample :
    isNetworkErrV2 (lowerStr "permission denied") = false ∧
    isQuotaErrV2 (lowerStr "permission denied") = false ∧
    callAIUnifiedV2 c3env ["api-key-1", "api-key-2"] = .ok "KQ" :=
  ⟨by decide, by decide, by rfl⟩

/-- C3, amended: in the v1.7.1 dispatcher a fatal (non-network) failure ends
the current credential after a single attempt and the dispatcher advances to
the next credential and model, propagating only the final all-resources-
exhausted error carrying the last failure; the earlier dispatcher generation
did propagate a non-quota error immediately. -/
theorem C3_amended :
    (∀ (outcome : Nat → CallResult) (e : String),
      outcome 0 = .err e → isNetworkErrV2 (lowerStr e) = false →
        runKeyV2 outcome 0 = (.moveOn e, 1)) ∧
    (∀ (env : String → Nat → Nat → CallResult) (keys : List String) (e : String),
      keys ≠ [] → (∀ m k a, env m k a = .err e) →
        isNetworkErrV2 (lowerStr e) = false →
        callAIUnifiedV2 env keys = .error (allFailedMsg (some e))) ∧
    (∀ (env : String → Nat → CallResult) (keys : List String) (e : String),
      keys ≠ [] → env PRO_MODEL 0 = .err e → isQuotaErrV1 (lowerStr e) = false →
        callAIUnifiedV1 env keys = .error e) :=
  ⟨fun o e h1 h2 => runKeyV2_nonretry o e h1 h2,
   fun env keys e hk hf hn => callAIUnifiedV2_allFatal env keys e hk hf hn,
   fun env keys e hk h0 hq => callAIUnifiedV1_fatal env keys e hk h0 hq⟩

def c3wenv2 : String → Nat → Nat → CallResult := fun _ _ _ => .err "loi 400 bad request"

def c3wenv1 : String → Nat → CallResult := fun _ _ => .err "loi 400 bad request"

/-- C3, witness for the amended theorem at a concrete fatal error. -/
theorem C3_witness :
    runKeyV2 (fun _ => CallResult.err "loi 400 bad request") 0 =
      (.moveOn "loi 400 bad request", 1) ∧
    callAIUnifiedV2 c3wenv2 ["kA"] =
      .error (allFailedMsg (some "loi 400 bad request")) ∧
    callAIUnifiedV1 c3wenv1 ["kA"] = .error "loi 400 bad request" :=
  ⟨C3_amended.1 (fun _ => CallResult.err "loi 400 bad request") _ rfl (by decide),
   C3_amended.2.1 c3wenv2 ["kA"] _ (by decide) (fun _ _ _ => rfl) (by decide),
   C3_amended.2.2 c3wenv1 ["kA"] _ (by decide) rfl (by decide)⟩

/-- C4, counterexample: an error reading just "overloaded" is classified
neither as network nor as quota by the v1.7.1 classifier, so it is not
retried on the same credential: the key loop makes a single attempt and moves
on, where the claim requires NetworkError classification with up to 3
attempts. -/
theorem C4_counterexample :
    isNetworkErrV2 (lowerStr "overloaded") = false ∧
    isQuotaErrV2 (lowerStr "overloaded") = false ∧
    runKeyV2 (fun _ => CallResult.err "overloaded") 0 = (.moveOn "overloaded", 1) :=
  ⟨by decide, by decide, by rfl⟩

/-- C4, amended: quota-classified errors (429, resource exhausted, too many
requests, quota) that are not also network-classified end the credential after
one attempt with no same-credential retry; network-classified errors (xhr
error, rpc failed, fetch failed, network error, 503, 500 — but not
"overloaded") are retried on the same credential up to the bound of 3
attempts. -/
theorem C4_amended :
    (∀ (outcome : Nat → CallResult) (e : String),
      outcome 0 = .err e → isQuotaErrV2 (lowerStr e) = true →
        isNetworkErrV2 (lowerStr e) = false →
        runKeyV2 outcome 0 = (.moveOn e, 1)) ∧
    (∀ (outcome : Nat → CallResult) (e : String),
      (∀ a, outcome a = .err e) → isNetworkErrV2 (lowerStr e) = true →
        runKeyV2 outcome 0 = (.moveOn e, 3)) :=
  ⟨fun o e h1 _ h3 => runKeyV2_nonretry o e h1 h3,
   fun o e h1 h2 => runKeyV2_network_cap o e h1 h2⟩

/-- C4, witness for the amended theorem at concrete quota and network
errors. -/
theorem C4_witness :
    runKeyV2 (fun _ => CallResult.err "429 quota") 0 = (.moveOn "429 quota", 1) ∧
    runKeyV2 (fun _ => CallResult.err "503 service unavailable") 0 =
      (.moveOn "503 service unavailable", 3) :=
  ⟨C4_amended.1 (fun _ => CallResult.err "429 quota") _ rfl (by decide) (by decide),
   C4_amended.2 (fun _ => CallResult.err "503 service unavailable") _
     (fun _ => rfl) (by decide)⟩

def c5txA : Transaction :=
  { transactionCode := some "c", date := "d|1", description := "",
    debit := 2, credit := 3, fee := 0, vat := 0 }

def c5txB : Transaction :=
  { transactionCode := some "3|c", date := "d", description := "",
    debit := 1, credit := 2, fee := 0, vat := 0 }

/-- C5, counterexample: the pipe-separated fingerprint collides for two
transactions whose date, debit, credit and code all differ (a pipe inside the
date of one and inside the code of the other), refuting the claimed
equivalence. -/
theorem C5_counterexample :
    createTxSignature c5txA = createTxSignature c5txB ∧
    c5txA.date ≠ c5txB.date ∧ c5txA.debit ≠ c5txB.debit :=
  ⟨by decide, by decide, by decide⟩

/-- C5, amended: fingerprint equality is equivalent to equality of date,
debit, credit and normalized code, provided neither date contains the pipe
separator character (the decimal amount renderings never do, and the
normalized code is the final field). -/
theorem C5_amended (a b : Transaction)
    (ha : '|' ∉ a.date.data) (hb : '|' ∉ b.date.data) :
    createTxSignature a = createTxSignature b ↔
      (a.date = b.date ∧ a.debit = b.debit ∧ a.credit = b.credit ∧
        normalizedCode a = normalizedCode b) := by
  constructor
  · intro h
    simp only [createTxSignature] at h
    obtain ⟨h1, h2⟩ := sepSplit '|' _ _ _ _ ha hb h
    obtain ⟨h3, h4⟩ :=
      sepSplit '|' _ _ _ _ (intChars_no_pipe a.debit) (intChars_no_pipe b.debit) h2
    obtain ⟨h5, h6⟩ :=
      sepSplit '|' _ _ _ _ (intChars_no_pipe a.credit) (intChars_no_pipe b.credit) h4
    exact ⟨String.ext h1, intChars_inj _ _ h3, intChars_inj _ _ h5, h6⟩
  · rintro ⟨h1, h2, h3, h4⟩
    simp only [createTxSignature, h1, h2, h3, h4]

def c5txW1 : Transaction :=
  { transactionCode := some "AB ", date := "01/02/2024", description := "x",
    debit := 5, credit := 7, fee := 0, vat := 0 }

def c5txW2 : Transaction :=
  { transactionCode := some "ab", date := "01/02/2024", description := "yy",
    debit := 5, credit := 7, fee := 0, vat := 0 }

/-- C5, witness for the amended theorem: two concrete transactions with equal
normalized fields receive equal fingerprints. -/
theorem C5_witness :
    '|' ∉ c5txW1.date.data ∧ '|' ∉ c5txW2.date.data ∧
    createTxSignature c5txW1 = createTxSignature c5txW2 :=
  ⟨by decide, by decide,
    (C5_amended c5txW1 c5txW2 (by decide) (by decide)).mpr
      ⟨rfl, rfl, rfl, by decide⟩⟩

def c6input : String := "\x7b\"a\":\"x,\x7d\"\x7d"

set_option maxRecDepth 20000 in
/-- C6, counterexample: the description string segment of the input holds the
content `x,\x7d` (containing a comma and a closing brace); the final global
trailing-comma cleanup of `robustJSONRepair` is not segment-aware and deletes
the comma inside the string, altering the string content. -/
theorem C6_counterexample :
    hasSubStr c6input "x,\x7d" = true ∧
    robustJSONRepair c6input = "\x7b\"a\":\"x\x7d\"\x7d" ∧
    hasSubStr (robustJSONRepair c6input) "x,\x7d" = false :=
  ⟨by decide, by rfl, by decide⟩

/-- C6, amended: the segment-aware phase itself does preserve every string
segment that contains no raw control characters (braces, colons and commas
inside strings are untouched there); the corruption comes from the later
non-segment-aware steps (global trailing-comma cleanup and truncation
closing). -/
theorem C6_amended (l seg : List Char) (hseg : seg ∈ segmentize l)
    (hq : seg.head? = some '"') (hctrl : ∀ c ∈ seg, 32 ≤ c.toNat) :
    processSeg seg = seg := by
  cases seg with
  | nil => simp at hq
  | cons c rest =>
      simp only [List.head?_cons, Option.some.injEq] at hq
      subst hq
      exact escCtrlSeg_id _ hctrl

/-- C6, witness for the amended theorem on a concrete string segment. -/
theorem C6_witness :
    ('"' :: 'a' :: ['"']) ∈ segmentize "\"a\"".data ∧
    processSeg ('"' :: 'a' :: ['"']) = '"' :: 'a' :: ['"'] :=
  ⟨by decide, C6_amended "\"a\"".data ('"' :: 'a' :: ['"']) (by decide) (by decide) (by decide)⟩

def c7input : String :=
  "\x7b\"transactions\":[\x7b\"date\":\"01/01/2024\",\"debit\":1000,\"credit\":0\x7d,\x7b\"date\":\"02/01/2024\",\"debit\":0,"

def c7expected : String :=
  "\x7b\"transactions\":[\x7b\"date\":\"01/01/2024\",\"debit\":1000,\"credit\":0\x7d]\x7d"

set_option maxRecDepth 20000 in
/-- C7: the truncated two-transaction input is repaired by closing after the
last complete array element, and the result parses to an object whose
transactions array holds exactly the one completed first transaction. -/
theorem C7 :
    robustJSONRepair c7input = c7expected ∧
    jsonParse c7expected =
      some (.obj [("transactions", .arr [.obj
        [("date", .str "01/01/2024"), ("debit", .num "1000"),
         ("credit", .num "0")]])]) :=
  ⟨by rfl, by rfl⟩

def c8input : String := "\x7b\"a\":\"\x60\x60\x60\"\x7d"

set_option maxRecDepth 20000 in
/-- C8, counterexample: the input is already valid JSON whose string value is
three backticks, but the parser strips code-fence markers everywhere — also
inside strings — so it returns a different structural object than
`JSON.parse`. -/
theorem C8_counterexample :
    jsonParse c8input = some (.obj [("a", .str "\x60\x60\x60")]) ∧
    cleanAndParseJSON c8input = .ok (.obj [("a", .str "")]) ∧
    JVal.obj [("a", .str "\x60\x60\x60")] ≠ JVal.obj [("a", .str "")] :=
  ⟨by rfl, by rfl, by simp⟩

/-- C8, amended: for raw input containing no three-backtick fence marker whose
trimmed text is valid JSON, the parser returns exactly the `JSON.parse` result
of the trimmed text (and, the model being a pure function, equal inputs always
produce equal repaired results). -/
theorem C8_amended (raw : String) (v : JVal)
    (hf : hasSubL "\x60\x60\x60".data raw.data = false)
    (hp : jsonParse (String.mk (trimL raw.data)) = some v) :
    cleanAndParseJSON raw = .ok v := by
  have hclean : trimL (removeFences raw.data) = trimL raw.data := by
    rw [removeFences_id raw.data hf]
  have hne : ¬ trimL raw.data = [] := by
    intro h0
    rw [h0] at hp
    have : jsonParse (String.mk []) = none := rfl
    rw [this] at hp
    exact Option.noConfusion hp
  simp only [cleanAndParseJSON, hclean, if_neg hne, hp]

def c8wraw : String := "  \x7b\"k\":1\x7d "

set_option maxRecDepth 20000 in
/-- C8, witness for the amended theorem on concrete whitespace-padded valid
JSON. -/
theorem C8_witness :
    hasSubL "\x60\x60\x60".data c8wraw.data = false ∧
    jsonParse (String.mk (trimL c8wraw.data)) = some (.obj [("k", .num "1")]) ∧
    cleanAndParseJSON c8wraw = .ok (.obj [("k", .num "1")]) :=
  ⟨by decide, by rfl, C8_amended c8wraw (.obj [("k", .num "1")]) (by decide) (by rfl)⟩

theorem textChunks_map_body (lines : List String) (n : Nat) :
    (textChunks lines n).map Chunk.bodyLines = chunksOf n lines := by
  unfold textChunks
  rw [List.map_map]
  have hcomp : Chunk.bodyLines ∘ mkChunk (joinLines (lines.take 20)) = Prod.snd :=
    funext fun p => rfl
  rw [hcomp, List.enum_map_snd]

/-- C9: the chunking never removes the header from the source lines — the
chunk bodies concatenate back to the full line sequence; the first chunk
payload is exactly its own body; every later chunk payload is the delimited
header context followed by its own body. -/
theorem C9 (lines : List String) (n : Nat) (hn : 1 ≤ n) :
    ((textChunks lines n).map Chunk.bodyLines).flatten = lines ∧
    (∀ c ∈ (textChunks lines n).head?, c.data = joinLines c.bodyLines) ∧
    (∀ (i : Nat) (h : i + 1 < (textChunks lines n).length),
      ((textChunks lines n).get ⟨i + 1, h⟩).data =
        wrapHeader (joinLines (lines.take 20))
          (joinLines (((textChunks lines n).get ⟨i + 1, h⟩).bodyLines))) := by
  refine ⟨?_, ?_, ?_⟩
  · rw [textChunks_map_body, chunksOf_flatten]
  · cases hcs : chunksOf n lines with
    | nil => simp [textChunks, hcs]
    | cons c0 cr =>
        intro c hc
        simp only [textChunks, hcs, List.enum_cons, List.map_cons, List.head?_cons,
          Option.mem_def, Option.some.injEq] at hc
        subst hc
        simp [mkChunk]
  · intro i h
    have hlen : (textChunks lines n).length = (chunksOf n lines).length := by
      simp [textChunks, List.length_map, List.enum_length]
    have h2 : 2 ≤ (chunksOf n lines).length := by omega
    have hnl : n < lines.length := chunksOf_two_len n lines hn h2
    have hheader : joinLines (lines.take 20) ≠ "" := by
      cases lines with
      | nil => simp at hnl
      | cons a t =>
          cases t with
          | nil => simp at hnl; omega
          | cons b r => exact joinLines_two_ne a b (r.take 18)
    simp only [List.get_eq_getElem, textChunks, List.getElem_map, List.getElem_enum,
      mkChunk]
    rw [if_pos ⟨Nat.succ_ne_zero i, hheader⟩]

/-- C9, witness: the chunk-body concatenation property at a concrete two-line
document with chunk size 1. -/
theorem C9_witness :
    1 ≤ 1 ∧ ((textChunks ["dong 1", "dong 2"] 1).map Chunk.bodyLines).flatten =
      ["dong 1", "dong 2"] :=
  ⟨by decide, (C9 ["dong 1", "dong 2"] 1 (by decide)).1⟩

/-- C10: every transaction of the merged ledger comes unchanged from one of
the included fragments — merging only filters, deduplicates and reorders. -/
theorem C10 (u : Option Int) (frags : List Frag) (m : MergedLedger)
    (tx : Transaction) (hm : mergeResults u frags = some m)
    (htx : tx ∈ m.transactions) :
    ∃ f ∈ frags, tx ∈ f.transactions := by
  cases frags with
  | nil => simp [mergeResults] at hm
  | cons f rest =>
      simp only [mergeResults, Option.some.injEq] at hm
      subst hm
      have hmem : tx ∈ collectFrags [] (f :: rest) :=
        ((List.perm_insertionSort _ _).mem_iff).mp htx
      exact collectFrags_mem [] (f :: rest) tx hmem

def c10tx : Transaction :=
  { transactionCode := some "FT123", date := "05/03/2024",
    description := "thanh toan hoa don", debit := 0, credit := 250,
    fee := 0, vat := 0 }

def c10frag : Frag :=
  { accountInfo :=
      { accountName := "CTY A", accountNumber := "001", bankName := "VCB",
        branch := "HN" },
    openingBalance := 1000, endingBalance := 750, transactions := [c10tx] }

def c10merged : MergedLedger :=
  { accountInfo :=
      { accountName := "CTY A", accountNumber := "001", bankName := "VCB",
        branch := "HN" },
    transactions := [c10tx], openingBalance := 1000, endingBalance := 750,
    detectedEnding := 750, mismatchWarning := false }

/-- C10, witness at a concrete one-fragment merge. -/
theorem C10_witness :
    mergeResults none [c10frag] = some c10merged ∧
    ∃ f ∈ [c10frag], c10tx ∈ f.transactions :=
  ⟨by decide, C10 none [c10frag] c10merged c10tx (by decide) (by decide)⟩

end VrBank
